import Mathlib

/-!
Verification development for the `webpager` anchor feature-extraction
pipeline (`src/webpager/features.py`).

The Python module is embedded shallowly:

* `tokenize` embeds the module-level `tokenize` (Python `str.split()`:
  split on runs of whitespace, dropping empty pieces), working on the
  character list of the string.
* `joinTokens` embeds `u" ".join(tokens)`.
* `Tagset` is modelled from the spec: the class lives in
  `webpager/preprocess.py`, which is not part of the sources at hand;
  the spec describes "an ordered collection of pseudo-tag names each
  mapped to a unique start/end textual marker pair" with per-token
  recognizers `start_tag_or_none` / `end_tag_or_none`.
* `Anchor` models a sanitized DOM `<a>` element: optional inner text,
  an attribute list, and the structural context the support functions
  read (nearest ancestor tag, enclosing block text).
* `HtmlFeaturesExtractor.fit_transform` embeds the anchor loop of
  `features.py` lines 63-91; the tag-encoding / lenient parse / clean /
  link-absolutization front end (external lxml capabilities plus
  `Tagset.encode_tags`) is modelled as a deterministic function
  `parseClean` producing the document-order anchor list.
-/

/-- Embeds Python `str.split()` on a character list: split on runs of
whitespace characters, dropping empty pieces. -/
def tokenizeL : List Char → List (List Char)
  | [] => []
  | c :: cs =>
    if c.isWhitespace then tokenizeL cs
    else
      match cs, tokenizeL cs with
      | [], _ => [[c]]
      | c2 :: _, r =>
        if c2.isWhitespace then [c] :: r
        else
          match r with
          | [] => [[c]]
          | t :: ts => (c :: t) :: ts

/-- Embeds the module-level `tokenize(text): return text.split()` of
`features.py`. -/
def tokenize (text : String) : List String :=
  (tokenizeL text.toList).map (fun l => String.mk l)

/-- Embeds `u" ".join(tokens)`. -/
def joinTokens (tokens : List String) : String :=
  String.mk (List.intercalate [' '] (tokens.map String.toList))

/-- Modelled from the spec: `Tagset` (from `webpager/preprocess.py`,
not among the sources at hand) is "an ordered collection of pseudo-tag
names each mapped to a unique start/end textual marker pair". -/
structure Tagset where
  tags : List String
  startMarker : String → String
  endMarker : String → String

/-- Modelled from the spec: `start_tag_or_none(token)` returns "the
matched tag name or none". -/
def Tagset.start_tag_or_none (ts : Tagset) (token : String) : Option String :=
  ts.tags.find? (fun t => ts.startMarker t == token)

/-- Modelled from the spec: `end_tag_or_none(token)` returns "the
matched tag name or none". -/
def Tagset.end_tag_or_none (ts : Tagset) (token : String) : Option String :=
  ts.tags.find? (fun t => ts.endMarker t == token)

/-- Python truthiness of an optional string: `None` and `''` are falsy,
any other string is truthy. -/
def pyTruthy : Option String → Bool
  | none => false
  | some s => s != ""

/-- The filter test of `fit_transform` line 85-86:
`self.tagset.start_tag_or_none(token) or self.tagset.end_tag_or_none(token)`
under Python truthiness. -/
def isTagToken (ts : Tagset) (token : String) : Bool :=
  pyTruthy (ts.start_tag_or_none token) || pyTruthy (ts.end_tag_or_none token)

/-- A token is recognized by the tagset as a start or end pseudo-tag
marker (the spec-level notion: one of the recognizers matches). -/
def recognizedTag (ts : Tagset) (token : String) : Bool :=
  (ts.start_tag_or_none token).isSome || (ts.end_tag_or_none token).isSome

/-- A sanitized DOM anchor (`<a>`) element: optional inner text, its
attribute list (`href`, `class`, `id`, ...), and the structural context
read by the support functions. -/
structure Anchor where
  text : Option String
  attrs : List (String × String)
  parentTag : String
  blockText : String
deriving DecidableEq

/-- Embeds lxml `anchor.get(key, default)`. -/
def Anchor.getAttr (a : Anchor) (key dflt : String) : String :=
  match a.attrs.find? (fun kv => kv.1 == key) with
  | some kv => kv.2
  | none => dflt

/-- The extractor state built by `HtmlFeaturesExtractor.__init__`: a
tagset and a replaceable tokenizer, plus the deterministic front end
(`tagset.encode_tags`, lenient parse, `clean_html`,
`make_links_absolute`, `doc.iter('a')`) modelled as a function from
(HTML, base URL) to the document-order anchor list. -/
structure HtmlFeaturesExtractor where
  tagset : Tagset
  tok : String → List String
  parseClean : String → String → List Anchor

/-- The body of the anchor loop of `fit_transform` (lines 83-89):
tokenize `anchor.text or ''`, drop the tokens recognized as pseudo-tag
markers, rewrite the text to the space-join of the remaining tokens,
and label 1 exactly when the token count changed. -/
def processAnchor (e : HtmlFeaturesExtractor) (anchor : Anchor) : Anchor × Nat :=
  let tokens := e.tok (anchor.text.getD "")
  let no_tag_tokens := tokens.filter (fun token => !(isTagToken e.tagset token))
  ({ anchor with text := some (joinTokens no_tag_tokens) },
   if tokens.length ≠ no_tag_tokens.length then 1 else 0)

/-- Embeds `HtmlFeaturesExtractor.fit_transform` (lines 63-91): run the
front end, then process every anchor in document order, returning the
anchor list and the parallel label list. -/
def HtmlFeaturesExtractor.fit_transform (e : HtmlFeaturesExtractor)
    (X : String × String) : List Anchor × List Nat :=
  let ps := (e.parseClean X.1 X.2).map (processAnchor e)
  (ps.map Prod.fst, ps.map Prod.snd)

/-! ### Text feature transformers -/

/-- Modelled from the spec: the character n-gram vectorizing capability
consumed from the external library (sklearn `CountVectorizer`): "fit a
vocabulary over text fragments and produce sparse numeric vectors";
`fit` builds the fragment-to-column Vocabulary from the batch,
`transform` reuses it, unseen fragments contribute zero. -/
structure CountVectorizer where
  nlo : Nat
  nhi : Nat
  binary : Bool
  vocabulary : List String

/-- The character n-grams of lengths `nlo..nhi` of a string. -/
def charNgrams (nlo nhi : Nat) (s : String) : List String :=
  (List.range (nhi + 1)).flatMap (fun n =>
    if n < nlo then []
    else (List.range (s.toList.length + 1 - n)).map
      (fun i => String.mk ((s.toList.drop i).take n)))

def CountVectorizer.analyze (cv : CountVectorizer) (s : String) : List String :=
  charNgrams cv.nlo cv.nhi s

/-- One matrix row: for each vocabulary fragment, its occurrence count in
the analyzed text (clamped to a presence flag in binary mode). -/
def cvRow (cv : CountVectorizer) (vocab : List String) (t : String) : List Nat :=
  vocab.map (fun g =>
    let c := (cv.analyze t).count g
    if cv.binary then min c 1 else c)

def CountVectorizer.fit_transform (cv : CountVectorizer) (texts : List String) :
    CountVectorizer × List (List Nat) :=
  let v := (texts.flatMap cv.analyze).dedup
  ({ cv with vocabulary := v }, texts.map (cvRow cv v))

def CountVectorizer.transform (cv : CountVectorizer) (texts : List String) :
    List (List Nat) :=
  texts.map (cvRow cv cv.vocabulary)

/-- Embeds `get_text(anchor): return anchor.text`; anchors coming out of
the extractor always carry a string text, absent text reads as `''`. -/
def get_text (anchor : Anchor) : String := anchor.text.getD ""

/-- Embeds `get_attr_text(anchor)`: `anchor.get('class', '') + anchor.get('id', '')`. -/
def get_attr_text (anchor : Anchor) : String :=
  anchor.getAttr "class" "" ++ anchor.getAttr "id" ""

/-- Models `urlparse`/`parse_qs` from the Python standard library (external):
the query-parameter keys of a URL — the segment after `?` up to `#`, split
on `&`, keeping the keys of `key=value` pairs with nonempty values,
deduplicated. -/
def queryParamKeys (url : String) : List String :=
  let query := ((url.toList.dropWhile (fun c => c ≠ '?')).drop 1).takeWhile (fun c => c ≠ '#')
  let segs := query.splitOn '&'
  (segs.filterMap (fun seg =>
    let k := seg.takeWhile (fun c => c ≠ '=')
    let v := (seg.dropWhile (fun c => c ≠ '=')).drop 1
    if v = [] then none else some (String.mk k))).dedup

/-- Embeds `get_query_params(anchor)`:
`" ".join(parse_qs(urlparse(anchor.get('href', '')).query).keys())`. -/
def get_query_params (anchor : Anchor) : String :=
  joinTokens (queryParamKeys (anchor.getAttr "href" ""))

/-- Embeds `AnchorTextTransformer` (lines 116-135): an injected
text-extraction strategy plus a character n-gram vectorizer (defaults in
the source: char analyzer, ngram_range (2, 4), min_df 1, binary). -/
structure AnchorTextTransformer where
  _get_text : Anchor → String
  _vectorizer : CountVectorizer

def AnchorTextTransformer.fit_transform (att : AnchorTextTransformer)
    (X : List (Anchor × String)) : AnchorTextTransformer × List (List Nat) :=
  let texts := X.map (fun p => att._get_text p.1)
  let r := att._vectorizer.fit_transform texts
  ({ att with _vectorizer := r.1 }, r.2)

def AnchorTextTransformer.transform (att : AnchorTextTransformer)
    (X : List (Anchor × String)) : List (List Nat) :=
  att._vectorizer.transform (X.map (fun p => att._get_text p.1))

def AnchorTextTransformer.get_feature_names (att : AnchorTextTransformer) :
    List String :=
  att._vectorizer.vocabulary

/-! ### Context feature transformer -/

/-- Modelled from the spec: the dictionary-vectorizing capability consumed
from the external library (sklearn `DictVectorizer`): builds (fit) or
reuses (transform) a key-to-column Vocabulary over the merged per-anchor
dictionaries; one matrix row per input dictionary. -/
structure DictVectorizer where
  vocabulary : List String

/-- Lookup in a Python-dict model (association list with unique keys,
insertion order preserved). -/
def dictGet (d : List (String × Nat)) (k : String) : Option Nat :=
  (d.find? (fun kv => kv.1 == k)).map Prod.snd

/-- Python `d[k] = v`: replace in place if the key is present, else append. -/
def dictSet (d : List (String × Nat)) (k : String) (v : Nat) : List (String × Nat) :=
  if d.any (fun kv => kv.1 == k) then
    d.map (fun kv => if kv.1 == k then (k, v) else kv)
  else d ++ [(k, v)]

/-- Python `d.update(m)`: insert every binding of `m` into `d` in order. -/
def dictUpdate (d m : List (String × Nat)) : List (String × Nat) :=
  m.foldl (fun acc kv => dictSet acc kv.1 kv.2) d

def DictVectorizer.fit_transform (dv : DictVectorizer)
    (ds : List (List (String × Nat))) : DictVectorizer × List (List Nat) :=
  let v := (ds.flatMap (fun d => d.map Prod.fst)).dedup
  ({ dv with vocabulary := v }, ds.map (fun d => v.map (fun k => (dictGet d k).getD 0)))

def DictVectorizer.transform (dv : DictVectorizer)
    (ds : List (List (String × Nat))) : List (List Nat) :=
  ds.map (fun d => dv.vocabulary.map (fun k => (dictGet d k).getD 0))

/-- Embeds `AnchorContextTransformer` (lines 93-114): a list of feature
functions plus a dictionary vectorizer. -/
structure AnchorContextTransformer where
  feature_funcs : List (Anchor → String → List (String × Nat))
  dict_vectorizer : DictVectorizer

/-- Embeds `_apply_funcs` (lines 110-114): start from the empty dict and
`update` it with each feature function's output, in order. -/
def AnchorContextTransformer._apply_funcs (t : AnchorContextTransformer)
    (anchor : Anchor) (url : String) : List (String × Nat) :=
  t.feature_funcs.foldl (fun d f => dictUpdate d (f anchor url)) []

def AnchorContextTransformer.fit_transform (t : AnchorContextTransformer)
    (X : List (Anchor × String)) : AnchorContextTransformer × List (List Nat) :=
  let r := t.dict_vectorizer.fit_transform (X.map (fun p => t._apply_funcs p.1 p.2))
  ({ t with dict_vectorizer := r.1 }, r.2)

def AnchorContextTransformer.transform (t : AnchorContextTransformer)
    (X : List (Anchor × String)) : List (List Nat) :=
  t.dict_vectorizer.transform (X.map (fun p => t._apply_funcs p.1 p.2))

/-- The rightmost present value of a list of optional values: the merge
order of `_apply_funcs` means a later function's binding wins. -/
def lastSome (l : List (Option Nat)) : Option Nat :=
  l.foldl (fun acc o => o.or acc) none

/-! ### Edit-distance transformer -/

/-- Levenshtein edit distance between two character lists. -/
def lev : List Char → List Char → Nat
  | [], ys => ys.length
  | xs, [] => xs.length
  | x :: xs, y :: ys =>
    if x = y then lev xs ys
    else 1 + min (lev (x :: xs) ys) (min (lev xs (y :: ys)) (lev xs ys))
termination_by xs ys => xs.length + ys.length

/-- Modelled from the spec: `url_edit_distance` (from
`webpager/functions.py`, not among the sources at hand): "character-level
edit distance (e.g., Levenshtein distance) between the anchor's absolute
URL and the current page's own URL". -/
def url_edit_distance (anchor : Anchor) (url : String) : Nat :=
  lev (anchor.getAttr "href" "").toList url.toList

/-- Embeds `AnchorEditDistanceTransformer` (lines 137-149): stateless. -/
structure AnchorEditDistanceTransformer

def AnchorEditDistanceTransformer.get_feature_names
    (t : AnchorEditDistanceTransformer) : List String :=
  ["edit_distance"]

/-- Embeds `fit(X, y=None): return self`. -/
def AnchorEditDistanceTransformer.fit (t : AnchorEditDistanceTransformer)
    (X : List (Anchor × String)) : AnchorEditDistanceTransformer := t

/-- Embeds `transform(X)`: one distance per pair, reshaped to a column. -/
def AnchorEditDistanceTransformer.transform (t : AnchorEditDistanceTransformer)
    (X : List (Anchor × String)) : List (List Nat) :=
  X.map (fun p => [url_edit_distance p.1 p.2])

/-! ### Support functions and the transformer registry -/

/-- Modelled from the spec: `parent_tag` (from `webpager/functions.py`, not
among the sources at hand): "name of the nearest ancestor element tag
(categorical)", encoded as a categorical key the way the dictionary
vectorizer encodes string values. -/
def parent_tag (anchor : Anchor) (url : String) : List (String × Nat) :=
  [("parent_tag=" ++ anchor.parentTag, 1)]

/-- Modelled from the spec: `block_length` (from `webpager/functions.py`):
"character count of the nearest enclosing block-level container's text". -/
def block_length (anchor : Anchor) (url : String) : List (String × Nat) :=
  [("block_length", anchor.blockText.length)]

/-- Modelled from the spec: `number_pattern` (from `webpager/functions.py`):
indicator of whether the anchor's text "looks like a number/page index"
(purely digits). -/
def number_pattern (anchor : Anchor) (url : String) : List (String × Nat) :=
  [("number_pattern",
    if (anchor.text.getD "") ≠ "" ∧ (∀ c ∈ (anchor.text.getD "").toList, c.isDigit) then 1 else 0)]

/-- Embeds `default_funcs = (parent_tag, block_length, number_pattern)`. -/
def default_funcs : List (Anchor → String → List (String × Nat)) :=
  [parent_tag, block_length, number_pattern]

/-- The source's default `CountVectorizer(analyzer='char', ngram_range=(2, 4),
min_df=1, binary=True)`, before fitting. -/
def defaultCountVectorizer : CountVectorizer :=
  { nlo := 2, nhi := 4, binary := true, vocabulary := [] }

/-- The transformer objects bound in the registry (they have different
types in the source; a sum type holds them). -/
inductive AnchorTransformer where
  | text : AnchorTextTransformer → AnchorTransformer
  | context : AnchorContextTransformer → AnchorTransformer
  | edit : AnchorEditDistanceTransformer → AnchorTransformer

/-- Embeds the module-level `AnchorTransformers` registry (lines 151-155). -/
def AnchorTransformers : List (String × AnchorTransformer) :=
  [("anchor_text", .text { _get_text := get_text, _vectorizer := defaultCountVectorizer }),
   ("anchor_class_id", .text { _get_text := get_attr_text, _vectorizer := defaultCountVectorizer }),
   ("anchor_query_params", .text { _get_text := get_query_params, _vectorizer := defaultCountVectorizer }),
   ("anchor_misc", .context { feature_funcs := default_funcs, dict_vectorizer := { vocabulary := [] } }),
   ("anchor_edit_distance", .edit {})]

/-- Modelled from the spec: the external feature-union stage concatenates
each transformer's output column block row-wise, in list order. -/
def hconcat : List (List (List Nat)) → List (List Nat)
  | [] => []
  | b :: bs => bs.foldl (fun acc m => List.zipWith (fun r s => r ++ s) acc m) b

/-! ### Concrete witness inputs -/

/-- A concrete tagset with the default `PAGE` pseudo-tag. -/
def pageTagset : Tagset :=
  { tags := ["PAGE"],
    startMarker := fun t => "~" ++ t ++ "~",
    endMarker := fun t => "~/" ++ t ++ "~" }

/-- A concrete three-anchor document: one anchor whose text carries a
`PAGE` start marker, one plain anchor, one anchor with absent text. -/
def sampleDoc : List Anchor :=
  [{ text := some "next ~PAGE~ page", attrs := [("href", "http://x.com/p/2")],
     parentTag := "div", blockText := "next page" },
   { text := some "2", attrs := [("href", "http://x.com/p/2")],
     parentTag := "li", blockText := "2" },
   { text := none, attrs := [], parentTag := "div", blockText := "" }]

/-- A concrete extractor over `sampleDoc`. -/
def wExtractor : HtmlFeaturesExtractor :=
  { tagset := pageTagset, tok := tokenize, parseClean := fun _ _ => sampleDoc }

/-! ### Witness inputs for the transformer claims -/

/-- A fitted-batch anchor whose text is `ab` (vocabulary `["ab"]`). -/
def wTextAnchorAB : Anchor :=
  { text := some "ab", attrs := [], parentTag := "p", blockText := "" }

/-- An anchor whose text `abQ` contains the fitted fragment `ab` once plus
fragments (`bQ`, `abQ`) unseen during fitting. -/
def wTextAnchorNovel : Anchor :=
  { text := some "abQ", attrs := [], parentTag := "p", blockText := "" }

def wATT : AnchorTextTransformer :=
  { _get_text := get_text, _vectorizer := defaultCountVectorizer }

def wBatch : List (Anchor × String) := [(wTextAnchorAB, "http://x.com/")]

def wEdit : AnchorEditDistanceTransformer := {}

def wEditAnchor : Anchor :=
  { text := some "3", attrs := [("href", "http://x.com/p/3")], parentTag := "li", blockText := "3" }

def wEditBatch : List (Anchor × String) := [(wEditAnchor, "http://x.com/p/2")]

def wCtxFuncA : Anchor → String → List (String × Nat) := fun _ _ => [("x", 1), ("y", 5)]

def wCtxFuncB : Anchor → String → List (String × Nat) := fun _ _ => [("x", 2)]

def wCtx : AnchorContextTransformer :=
  { feature_funcs := [wCtxFuncA, wCtxFuncB], dict_vectorizer := { vocabulary := [] } }

def wCtxAnchor : Anchor :=
  { text := some "t", attrs := [], parentTag := "p", blockText := "" }

/-! ### Tokenization lemmas -/

theorem tokenizeL_ws_cons (c : Char) (cs : List Char) (h : c.isWhitespace = true) :
    tokenizeL (c :: cs) = tokenizeL cs := by
  simp [tokenizeL, h]

theorem tokenizeL_singleton (c : Char) (hc : c.isWhitespace = false) :
    tokenizeL [c] = [[c]] := by
  simp [tokenizeL, hc]

theorem tokenizeL_cons_ws (c c2 : Char) (tl : List Char)
    (hc : c.isWhitespace = false) (hc2 : c2.isWhitespace = true) :
    tokenizeL (c :: c2 :: tl) = [c] :: tokenizeL (c2 :: tl) := by
  conv_lhs => rw [tokenizeL]
  simp [hc, hc2]

theorem tokenizeL_cons_cons_nil (c c2 : Char) (tl : List Char)
    (hc : c.isWhitespace = false) (hc2 : c2.isWhitespace = false)
    (hr : tokenizeL (c2 :: tl) = []) :
    tokenizeL (c :: c2 :: tl) = [[c]] := by
  conv_lhs => rw [tokenizeL]
  rw [hr]
  simp [hc, hc2]

theorem tokenizeL_cons_cons_cons (c c2 : Char) (tl t : List Char) (ts : List (List Char))
    (hc : c.isWhitespace = false) (hc2 : c2.isWhitespace = false)
    (hr : tokenizeL (c2 :: tl) = t :: ts) :
    tokenizeL (c :: c2 :: tl) = (c :: t) :: ts := by
  conv_lhs => rw [tokenizeL]
  rw [hr]
  simp [hc, hc2]

theorem tokenizeL_single_token (t : List Char) (ht : t ≠ [])
    (hws : ∀ c ∈ t, c.isWhitespace = false) : tokenizeL t = [t] := by
  induction t with
  | nil => exact absurd rfl ht
  | cons c cs ih =>
    have hc : c.isWhitespace = false := hws c (by simp)
    cases cs with
    | nil => exact tokenizeL_singleton c hc
    | cons c2 cs2 =>
      have hc2 : c2.isWhitespace = false := hws c2 (by simp)
      have ih2 := ih (by simp) (fun x hx => hws x (List.mem_cons_of_mem _ hx))
      rw [tokenizeL_cons_cons_cons c c2 cs2 (c2 :: cs2) [] hc hc2 ih2]

theorem tokenizeL_token_sep (t r : List Char) (ht : t ≠ [])
    (hws : ∀ c ∈ t, c.isWhitespace = false) :
    tokenizeL (t ++ ' ' :: r) = t :: tokenizeL r := by
  induction t with
  | nil => exact absurd rfl ht
  | cons c cs ih =>
    have hc : c.isWhitespace = false := hws c (by simp)
    have hsp : (' ').isWhitespace = true := by decide
    cases cs with
    | nil =>
      rw [List.cons_append, List.nil_append, tokenizeL_cons_ws c ' ' r hc hsp,
        tokenizeL_ws_cons ' ' r hsp]
    | cons c2 cs2 =>
      have hc2 : c2.isWhitespace = false := hws c2 (by simp)
      have ih2 := ih (by simp) (fun x hx => hws x (List.mem_cons_of_mem _ hx))
      simp only [List.cons_append] at ih2 ⊢
      rw [tokenizeL_cons_cons_cons c c2 (cs2 ++ ' ' :: r) (c2 :: cs2) (tokenizeL r) hc hc2 ih2]

theorem tokenizeL_wf (l : List Char) :
    ∀ s ∈ tokenizeL l, s ≠ [] ∧ ∀ c ∈ s, c.isWhitespace = false := by
  induction l using tokenizeL.induct with
  | case1 => simp [tokenizeL]
  | case2 c cs h ih => simpa [tokenizeL_ws_cons c cs h] using ih
  | case3 c h _ =>
    have hc : c.isWhitespace = false := by simpa using h
    simp [tokenizeL_singleton c hc, hc]
  | case4 c h c2 tail h2 ih =>
    have hc : c.isWhitespace = false := by simpa using h
    intro s hs
    rw [tokenizeL_cons_ws c c2 tail hc h2] at hs
    rcases List.mem_cons.mp hs with h3 | h3
    · subst h3
      exact ⟨by simp, by intro x hx; simp at hx; subst hx; exact hc⟩
    · exact ih s h3
  | case5 c h c2 tail h2 hr ih =>
    have hc : c.isWhitespace = false := by simpa using h
    have hc2 : c2.isWhitespace = false := by simpa using h2
    intro s hs
    rw [tokenizeL_cons_cons_nil c c2 tail hc hc2 hr] at hs
    simp at hs
    subst hs
    exact ⟨by simp, by intro x hx; simp at hx; subst hx; exact hc⟩
  | case6 c h c2 tail h2 t ts hr ih =>
    have hc : c.isWhitespace = false := by simpa using h
    have hc2 : c2.isWhitespace = false := by simpa using h2
    intro s hs
    rw [tokenizeL_cons_cons_cons c c2 tail t ts hc hc2 hr] at hs
    rcases List.mem_cons.mp hs with h3 | h3
    · subst h3
      have ht := ih t (by rw [hr]; simp)
      refine ⟨by simp, ?_⟩
      intro x hx
      rcases List.mem_cons.mp hx with h4 | h4
      · subst h4; exact hc
      · exact ht.2 x h4
    · exact ih s (by rw [hr]; exact List.mem_cons_of_mem _ h3)

theorem tokenizeL_intercalate (L : List (List Char))
    (h : ∀ t ∈ L, t ≠ [] ∧ ∀ c ∈ t, c.isWhitespace = false) :
    tokenizeL (List.intercalate [' '] L) = L := by
  induction L with
  | nil => simp [List.intercalate, tokenizeL]
  | cons t L2 ih =>
    cases L2 with
    | nil =>
      simp only [List.intercalate, List.intersperse_singleton, List.flatten, List.append_nil]
      exact tokenizeL_single_token t (h t (by simp)).1 (h t (by simp)).2
    | cons t2 L3 =>
      have hstep : List.intercalate [' '] (t :: t2 :: L3)
          = t ++ ' ' :: List.intercalate [' '] (t2 :: L3) := by
        simp [List.intercalate, List.intersperse_cons_cons, List.flatten]
      rw [hstep, tokenizeL_token_sep t _ (h t (by simp)).1 (h t (by simp)).2,
        ih (fun x hx => h x (List.mem_cons_of_mem _ hx))]

/-! ### String-level tokenization lemmas -/

theorem mk_toList_eq (s : String) : String.mk s.toList = s := by
  cases s
  rfl

theorem tokenize_wf (s : String) :
    ∀ t ∈ tokenize s, t.toList ≠ [] ∧ ∀ c ∈ t.toList, c.isWhitespace = false := by
  intro t ht
  rcases List.mem_map.mp ht with ⟨l, hl, rfl⟩
  simpa using tokenizeL_wf _ l hl

theorem tokenize_joinTokens (L : List String)
    (h : ∀ s ∈ L, s.toList ≠ [] ∧ ∀ c ∈ s.toList, c.isWhitespace = false) :
    tokenize (joinTokens L) = L := by
  unfold tokenize joinTokens
  have h2 : (String.mk (List.intercalate [' '] (L.map String.toList))).toList
      = List.intercalate [' '] (L.map String.toList) := rfl
  rw [h2, tokenizeL_intercalate]
  · rw [List.map_map]
    have h3 : ∀ s ∈ L, ((fun l => String.mk l) ∘ String.toList) s = id s := by
      intro s _
      simp [mk_toList_eq]
    rw [List.map_congr_left h3, List.map_id]
  · intro t ht
    rcases List.mem_map.mp ht with ⟨s, hs, rfl⟩
    exact h s hs

/-! ### Filter and truthiness lemmas -/

theorem length_ne_filter_iff (l : List α) (p : α → Bool) :
    (l.length ≠ (l.filter p).length) ↔ ∃ x ∈ l, p x = false := by
  induction l with
  | nil => simp
  | cons a tl ih =>
    cases ha : p a with
    | true =>
      simp only [List.filter_cons, ha, if_pos, List.length_cons]
      constructor
      · intro hne
        rcases ih.mp (by omega) with ⟨x, hx, hpx⟩
        exact ⟨x, List.mem_cons_of_mem _ hx, hpx⟩
      · intro hex
        rcases hex with ⟨x, hx, hpx⟩
        rcases List.mem_cons.mp hx with h1 | h1
        · subst h1
          rw [ha] at hpx
          exact absurd hpx (by simp)
        · have := ih.mpr ⟨x, h1, hpx⟩
          omega
    | false =>
      have hle := List.length_filter_le p tl
      simp only [List.filter_cons, ha, List.length_cons]
      constructor
      · intro _
        exact ⟨a, List.mem_cons_self a tl, ha⟩
      · intro _
        simp only [Bool.false_eq_true, if_neg, not_false_iff]
        omega

theorem pyTruthy_eq_isSome (o : Option String) (h : ∀ s, o = some s → s ≠ "") :
    pyTruthy o = o.isSome := by
  cases o with
  | none => rfl
  | some s =>
    simp [pyTruthy, bne_iff_ne, h s rfl]

theorem isTagToken_eq_recognizedTag (ts : Tagset) (hne : ∀ t ∈ ts.tags, t ≠ "")
    (token : String) : isTagToken ts token = recognizedTag ts token := by
  unfold isTagToken recognizedTag
  rw [pyTruthy_eq_isSome (ts.start_tag_or_none token)
      (fun s hs => hne s (List.mem_of_find?_eq_some hs)),
    pyTruthy_eq_isSome (ts.end_tag_or_none token)
      (fun s hs => hne s (List.mem_of_find?_eq_some hs))]

/-! ### fit_transform component lemmas -/

theorem fit_transform_fst (e : HtmlFeaturesExtractor) (X : String × String) :
    (e.fit_transform X).1 = (e.parseClean X.1 X.2).map (fun a => (processAnchor e a).1) := by
  simp [HtmlFeaturesExtractor.fit_transform, List.map_map, Function.comp]

theorem fit_transform_snd (e : HtmlFeaturesExtractor) (X : String × String) :
    (e.fit_transform X).2 = (e.parseClean X.1 X.2).map (fun a => (processAnchor e a).2) := by
  simp [HtmlFeaturesExtractor.fit_transform, List.map_map, Function.comp]

theorem processAnchor_fst (e : HtmlFeaturesExtractor) (a : Anchor) :
    (processAnchor e a).1
      = { a with text := some (joinTokens ((e.tok (a.text.getD "")).filter
          (fun token => !(isTagToken e.tagset token)))) } := rfl

theorem processAnchor_snd (e : HtmlFeaturesExtractor) (a : Anchor) :
    (processAnchor e a).2
      = if (e.tok (a.text.getD "")).length
            ≠ ((e.tok (a.text.getD "")).filter (fun token => !(isTagToken e.tagset token))).length
        then 1 else 0 := rfl

theorem fit_transform_fst_get (e : HtmlFeaturesExtractor) (X : String × String) (i : Nat)
    (hi : i < (e.parseClean X.1 X.2).length) (hi2 : i < ((e.fit_transform X).1).length) :
    ((e.fit_transform X).1).get ⟨i, hi2⟩
      = (processAnchor e ((e.parseClean X.1 X.2).get ⟨i, hi⟩)).1 := by
  revert hi2
  rw [fit_transform_fst]
  intro hi2
  simp [List.get_eq_getElem, List.getElem_map]

theorem fit_transform_snd_get (e : HtmlFeaturesExtractor) (X : String × String) (i : Nat)
    (hi : i < (e.parseClean X.1 X.2).length) (hi2 : i < ((e.fit_transform X).2).length) :
    ((e.fit_transform X).2).get ⟨i, hi2⟩
      = (processAnchor e ((e.parseClean X.1 X.2).get ⟨i, hi⟩)).2 := by
  revert hi2
  rw [fit_transform_snd]
  intro hi2
  simp [List.get_eq_getElem, List.getElem_map]

/-! ### Dictionary lemmas -/

theorem dictGet_cons (kv : String × Nat) (tl : List (String × Nat)) (k : String) :
    dictGet (kv :: tl) k = if kv.1 == k then some kv.2 else dictGet tl k := by
  cases h : kv.1 == k <;> simp [dictGet, List.find?_cons, h]

theorem dictGet_eq_none (d : List (String × Nat)) (k : String)
    (h : ∀ kv ∈ d, kv.1 ≠ k) : dictGet d k = none := by
  unfold dictGet
  rw [List.find?_eq_none.mpr]
  · rfl
  · intro kv hkv
    simp [h kv hkv]

theorem dictGet_map_set_ne (d : List (String × Nat)) (k : String) (v : Nat) (k2 : String)
    (hne : k2 ≠ k) :
    dictGet (d.map (fun kv => if kv.1 == k then (k, v) else kv)) k2 = dictGet d k2 := by
  induction d with
  | nil => rfl
  | cons a tl ih =>
    by_cases ha : a.1 = k
    · rw [List.map_cons, if_pos (by simp [ha]), dictGet_cons, dictGet_cons,
        if_neg (by simp [Ne.symm hne]), if_neg (by simp [ha, Ne.symm hne]), ih]
    · rw [List.map_cons, if_neg (by simp [ha]), dictGet_cons, dictGet_cons, ih]

theorem dictGet_map_set_eq (d : List (String × Nat)) (k : String) (v : Nat)
    (hmem : d.any (fun kv => kv.1 == k) = true) :
    dictGet (d.map (fun kv => if kv.1 == k then (k, v) else kv)) k = some v := by
  induction d with
  | nil => simp at hmem
  | cons a tl ih =>
    by_cases ha : a.1 = k
    · rw [List.map_cons, if_pos (by simp [ha]), dictGet_cons, if_pos (by simp)]
    · have hmem2 : tl.any (fun kv => kv.1 == k) = true := by
        rcases List.any_eq_true.mp hmem with ⟨kv, hkv, hk⟩
        rcases List.mem_cons.mp hkv with h1 | h1
        · exact absurd (by simpa using hk) (h1 ▸ ha)
        · exact List.any_eq_true.mpr ⟨kv, h1, hk⟩
      rw [List.map_cons, if_neg (by simp [ha]), dictGet_cons, if_neg (by simp [ha]), ih hmem2]

theorem dictGet_dictSet (d : List (String × Nat)) (k : String) (v : Nat) (k2 : String) :
    dictGet (dictSet d k v) k2 = if k2 = k then some v else dictGet d k2 := by
  unfold dictSet
  by_cases hmem : d.any (fun kv => kv.1 == k) = true
  · rw [if_pos hmem]
    by_cases h2 : k2 = k
    · subst h2
      rw [if_pos rfl, dictGet_map_set_eq d k2 v hmem]
    · rw [if_neg h2, dictGet_map_set_ne d k v k2 h2]
  · rw [if_neg hmem]
    have hfnone : List.find? (fun kv => kv.1 == k) d = none := by
      apply List.find?_eq_none.mpr
      intro kv hkv hk
      exact hmem (List.any_eq_true.mpr ⟨kv, hkv, hk⟩)
    by_cases h2 : k2 = k
    · subst h2
      rw [if_pos rfl]
      unfold dictGet
      rw [List.find?_append, hfnone]
      simp [List.find?_cons]
    · rw [if_neg h2]
      unfold dictGet
      rw [List.find?_append]
      have : List.find? (fun kv => kv.1 == k2) [(k, v)] = none := by
        simp [List.find?_cons, Ne.symm h2]
      rw [this]
      simp

theorem dictGet_dictUpdate (d m : List (String × Nat)) (k : String)
    (hnd : (m.map Prod.fst).Nodup) :
    dictGet (dictUpdate d m) k = (dictGet m k).or (dictGet d k) := by
  induction m generalizing d with
  | nil => simp [dictUpdate, dictGet]
  | cons kv m2 ih =>
    have hstep : dictUpdate d (kv :: m2) = dictUpdate (dictSet d kv.1 kv.2) m2 := rfl
    have hnd2 : (m2.map Prod.fst).Nodup := (List.nodup_cons.mp hnd).2
    have hnotin : kv.1 ∉ m2.map Prod.fst := (List.nodup_cons.mp hnd).1
    rw [hstep, ih _ hnd2, dictGet_cons]
    by_cases h2 : kv.1 = k
    · have hm2 : dictGet m2 k = none := by
        apply dictGet_eq_none
        intro kv2 hkv2 hk2
        exact hnotin (h2 ▸ hk2 ▸ List.mem_map_of_mem Prod.fst hkv2)
      rw [if_pos (by simp [h2]), hm2, dictGet_dictSet]
      simp [h2]
    · rw [if_neg (by simp [h2]), dictGet_dictSet, if_neg (Ne.symm h2)]

theorem dictGet_foldl_update (funcs : List (Anchor → String → List (String × Nat)))
    (a : Anchor) (u : String) (k : String) (d0 : List (String × Nat))
    (hnd : ∀ f ∈ funcs, ((f a u).map Prod.fst).Nodup) :
    dictGet (funcs.foldl (fun d f => dictUpdate d (f a u)) d0) k
      = (funcs.map (fun f => dictGet (f a u) k)).foldl (fun acc o => o.or acc) (dictGet d0 k) := by
  induction funcs generalizing d0 with
  | nil => rfl
  | cons f fs ih =>
    rw [List.foldl_cons, List.map_cons, List.foldl_cons,
      ih _ (fun g hg => hnd g (List.mem_cons_of_mem _ hg)),
      dictGet_dictUpdate _ _ _ (hnd f (List.mem_cons_self f fs))]

/-! ### Claim theorems: the anchor extractor -/

/-- C1: for every anchor processed by `HtmlFeaturesExtractor.fit_transform`,
the weak label appended for that anchor is 1 iff the whitespace-tokenized
anchor text contained at least one token recognized by the tagset as a
start or end pseudo-tag marker, and 0 otherwise; labels are always in
{0, 1} and there is exactly one label per returned anchor. -/
theorem C1_weak_labels (e : HtmlFeaturesExtractor) (html url : String)
    (htok : e.tok = tokenize) (hne : ∀ t ∈ e.tagset.tags, t ≠ "") :
    ((e.fit_transform (html, url)).2).length = ((e.fit_transform (html, url)).1).length ∧
    (∀ lab ∈ (e.fit_transform (html, url)).2, lab = 0 ∨ lab = 1) ∧
    ∀ i (hi : i < (e.parseClean html url).length)
      (hi2 : i < ((e.fit_transform (html, url)).2).length),
      (((e.fit_transform (html, url)).2).get ⟨i, hi2⟩ = 1 ↔
        ∃ token ∈ tokenize ((((e.parseClean html url).get ⟨i, hi⟩).text).getD ""),
          recognizedTag e.tagset token = true) := by
  refine ⟨?_, ?_, ?_⟩
  · rw [fit_transform_fst, fit_transform_snd]
    simp
  · intro lab hlab
    rw [fit_transform_snd] at hlab
    rcases List.mem_map.mp hlab with ⟨a, _, rfl⟩
    rw [processAnchor_snd]
    split
    · right; rfl
    · left; rfl
  · intro i hi hi2
    rw [fit_transform_snd_get e (html, url) i hi hi2, processAnchor_snd, htok]
    by_cases hc : (tokenize ((((e.parseClean html url).get ⟨i, hi⟩).text).getD "")).length
        ≠ ((tokenize ((((e.parseClean html url).get ⟨i, hi⟩).text).getD "")).filter
            (fun token => !(isTagToken e.tagset token))).length
    · rw [if_pos hc]
      refine ⟨fun _ => ?_, fun _ => rfl⟩
      rcases (length_ne_filter_iff _ _).mp hc with ⟨x, hx, hpx⟩
      refine ⟨x, hx, ?_⟩
      rw [← isTagToken_eq_recognizedTag e.tagset hne x]
      simpa using hpx
    · rw [if_neg hc]
      constructor
      · intro h0
        exact absurd h0 (by decide)
      · intro hex
        rcases hex with ⟨x, hx, hrec⟩
        exfalso
        apply hc
        apply (length_ne_filter_iff _ _).mpr
        refine ⟨x, hx, ?_⟩
        simp [isTagToken_eq_recognizedTag e.tagset hne x, hrec]

/-- C2: every anchor's text is rewritten to the space-joined sequence of
its non-marker tokens in their original order, and after extraction the
observable anchor text contains no start or end pseudo-tag marker token. -/
theorem C2_text_rewrite (e : HtmlFeaturesExtractor) (html url : String)
    (htok : e.tok = tokenize) (hne : ∀ t ∈ e.tagset.tags, t ≠ "") :
    ((e.fit_transform (html, url)).1).length = (e.parseClean html url).length ∧
    ∀ i (hi : i < (e.parseClean html url).length)
      (hi2 : i < ((e.fit_transform (html, url)).1).length),
      ((((e.fit_transform (html, url)).1).get ⟨i, hi2⟩).text
          = some (joinTokens
              ((tokenize ((((e.parseClean html url).get ⟨i, hi⟩).text).getD "")).filter
                (fun token => !(recognizedTag e.tagset token))))) ∧
      ∀ token ∈ tokenize ((((((e.fit_transform (html, url)).1).get ⟨i, hi2⟩).text)).getD ""),
        recognizedTag e.tagset token = false := by
  have hpred : ∀ l : List String,
      l.filter (fun token => !(isTagToken e.tagset token))
        = l.filter (fun token => !(recognizedTag e.tagset token)) := by
    intro l
    apply List.filter_congr
    intro x _
    rw [isTagToken_eq_recognizedTag e.tagset hne x]
  refine ⟨?_, ?_⟩
  · rw [fit_transform_fst]
    simp
  · intro i hi hi2
    have hget := fit_transform_fst_get e (html, url) i hi hi2
    rw [processAnchor_fst, htok] at hget
    constructor
    · rw [hget]
      simp only [hpred]
    · intro token htoken
      rw [hget] at htoken
      simp only [Option.getD_some] at htoken
      have hwfall : ∀ s ∈ (tokenize ((((e.parseClean html url).get ⟨i, hi⟩).text).getD "")).filter
          (fun token => !(isTagToken e.tagset token)),
          s.toList ≠ [] ∧ ∀ c ∈ s.toList, c.isWhitespace = false := by
        intro s hs
        exact tokenize_wf _ s (List.mem_of_mem_filter hs)
      rw [tokenize_joinTokens _ hwfall] at htoken
      have hmem := List.mem_filter.mp htoken
      have : isTagToken e.tagset token = false := by
        simpa using hmem.2
      rw [← isTagToken_eq_recognizedTag e.tagset hne token]
      exact this

/-- C3: two calls of `HtmlFeaturesExtractor.fit_transform` on identical
(HTML, base URL) input produce identical results: same anchors, same
order, same rewritten texts, same label sequence. -/
theorem C3_deterministic (e : HtmlFeaturesExtractor) (X1 X2 : String × String)
    (h : X1 = X2) : e.fit_transform X1 = e.fit_transform X2 := by
  rw [h]

/-- C10: an anchor whose text is absent (`None`) does not make
`fit_transform` fail: it is tokenized to the empty token list, still
appended with its text set to the empty string, and its weak label is 0. -/
theorem C10_none_text (e : HtmlFeaturesExtractor) (html url : String)
    (htok : e.tok = tokenize) (i : Nat) (hi : i < (e.parseClean html url).length)
    (hnone : (((e.parseClean html url).get ⟨i, hi⟩).text) = none) :
    e.tok ((((e.parseClean html url).get ⟨i, hi⟩).text).getD "") = [] ∧
    ((e.fit_transform (html, url)).1).length = (e.parseClean html url).length ∧
    ((e.fit_transform (html, url)).2).length = (e.parseClean html url).length ∧
    ∀ (hi2 : i < ((e.fit_transform (html, url)).1).length)
      (hi3 : i < ((e.fit_transform (html, url)).2).length),
      ((e.fit_transform (html, url)).1).get ⟨i, hi2⟩
        = { (e.parseClean html url).get ⟨i, hi⟩ with text := some "" } ∧
      ((e.fit_transform (html, url)).2).get ⟨i, hi3⟩ = 0 := by
  refine ⟨?_, ?_, ?_, ?_⟩
  · rw [hnone, htok]
    rfl
  · rw [fit_transform_fst]
    simp
  · rw [fit_transform_snd]
    simp
  · intro hi2 hi3
    constructor
    · rw [fit_transform_fst_get e (html, url) i hi hi2, processAnchor_fst, htok, hnone]
      rfl
    · rw [fit_transform_snd_get e (html, url) i hi hi3, processAnchor_snd, htok, hnone]
      rfl

/-! ### Claim theorems: transformers and registry -/

/-- C5: after `fit_transform` on a batch, `transform` on the same batch
reproduces the identical matrix; `transform` on any batch yields rows
whose length is the fitted vocabulary size; and rows depend only on the
occurrence counts of the fitted vocabulary fragments, so an unseen
fragment contributes zero and never causes a failure. -/
theorem C5_vocabulary_stability (att : AnchorTextTransformer) (X : List (Anchor × String))
    (a b : Anchor) (u v : String)
    (hcount : ∀ g ∈ ((att.fit_transform X).1)._vectorizer.vocabulary,
        (((att.fit_transform X).1)._vectorizer.analyze (att._get_text a)).count g
          = (((att.fit_transform X).1)._vectorizer.analyze (att._get_text b)).count g) :
    ((att.fit_transform X).1).transform X = (att.fit_transform X).2 ∧
    (∀ Y : List (Anchor × String),
      (((att.fit_transform X).1).transform Y).length = Y.length ∧
      ∀ row ∈ ((att.fit_transform X).1).transform Y,
        row.length = ((att.fit_transform X).1)._vectorizer.vocabulary.length) ∧
    ((att.fit_transform X).1).transform [(a, u)]
      = ((att.fit_transform X).1).transform [(b, v)] := by
  refine ⟨rfl, ?_, ?_⟩
  · intro Y
    constructor
    · simp [AnchorTextTransformer.transform, CountVectorizer.transform]
    · intro row hrow
      simp only [AnchorTextTransformer.transform, CountVectorizer.transform,
        List.mem_map] at hrow
      rcases hrow with ⟨t0, ht0, rfl⟩
      simp [cvRow]
  · have hgt : ((att.fit_transform X).1)._get_text = att._get_text := rfl
    simp only [AnchorTextTransformer.transform, CountVectorizer.transform,
      List.map_cons, List.map_nil, hgt]
    congr 1
    unfold cvRow
    apply List.map_congr_left
    intro g hg
    simp only [hcount g hg]

/-- C6: `AnchorEditDistanceTransformer` is stateless (`fit` is the
identity); `transform` returns one single-entry row per input pair, the
single column is named `edit_distance`, and the i-th entry is
`url_edit_distance` of the i-th pair. -/
theorem C6_edit_distance_transformer (t : AnchorEditDistanceTransformer)
    (X : List (Anchor × String)) :
    t.fit X = t ∧
    (t.transform X).length = X.length ∧
    (∀ row ∈ t.transform X, row.length = 1) ∧
    t.get_feature_names = ["edit_distance"] ∧
    ∀ i (hi : i < X.length) (hi2 : i < (t.transform X).length),
      (t.transform X).get ⟨i, hi2⟩
        = [url_edit_distance (X.get ⟨i, hi⟩).1 (X.get ⟨i, hi⟩).2] := by
  refine ⟨rfl, by simp [AnchorEditDistanceTransformer.transform], ?_, rfl, ?_⟩
  · intro row hrow
    simp only [AnchorEditDistanceTransformer.transform, List.mem_map] at hrow
    rcases hrow with ⟨p, _, rfl⟩
    rfl
  · intro i hi hi2
    revert hi2
    simp only [AnchorEditDistanceTransformer.transform]
    intro hi2
    simp [List.get_eq_getElem, List.getElem_map]

/-- C7: the transformer registry is exactly the five named bindings, in
order `anchor_text`, `anchor_class_id`, `anchor_query_params`,
`anchor_misc`, `anchor_edit_distance`, with pairwise distinct names; the
feature-union stage concatenates column blocks in that list order. -/
theorem C7_registry :
    AnchorTransformers.map Prod.fst
      = ["anchor_text", "anchor_class_id", "anchor_query_params",
         "anchor_misc", "anchor_edit_distance"] ∧
    (AnchorTransformers.map Prod.fst).Nodup ∧
    AnchorTransformers.length = 5 ∧
    ∀ r1 r2 r3 r4 r5 : List Nat,
      hconcat [[r1], [r2], [r3], [r4], [r5]] = [r1 ++ r2 ++ r3 ++ r4 ++ r5] := by
  refine ⟨rfl, by decide, rfl, ?_⟩
  intro r1 r2 r3 r4 r5
  simp [hconcat, List.append_assoc]

/-- C8: `_apply_funcs` merges the feature functions' dictionaries left to
right, so the value observed for a key is the last function's binding for
it (later overwrites earlier on collision); the output matrix has one row
per input pair. -/
theorem C8_context_merge (t : AnchorContextTransformer) (a : Anchor) (u k : String)
    (hnd : ∀ f ∈ t.feature_funcs, ((f a u).map Prod.fst).Nodup) :
    dictGet (t._apply_funcs a u) k
      = lastSome (t.feature_funcs.map (fun f => dictGet (f a u) k)) ∧
    ∀ X : List (Anchor × String), ((t.fit_transform X).2).length = X.length := by
  constructor
  · unfold AnchorContextTransformer._apply_funcs lastSome
    rw [dictGet_foldl_update t.feature_funcs a u k [] hnd]
    rfl
  · intro X
    simp [AnchorContextTransformer.fit_transform, DictVectorizer.fit_transform]

/-! ### Claim witnesses -/

theorem C5_vocabulary_stability_witness :
    (∀ g ∈ ((wATT.fit_transform wBatch).1)._vectorizer.vocabulary,
        (((wATT.fit_transform wBatch).1)._vectorizer.analyze (wATT._get_text wTextAnchorAB)).count g
          = (((wATT.fit_transform wBatch).1)._vectorizer.analyze (wATT._get_text wTextAnchorNovel)).count g) ∧
    (((wATT.fit_transform wBatch).1).transform wBatch = (wATT.fit_transform wBatch).2 ∧
     (∀ Y : List (Anchor × String),
       (((wATT.fit_transform wBatch).1).transform Y).length = Y.length ∧
       ∀ row ∈ ((wATT.fit_transform wBatch).1).transform Y,
         row.length = ((wATT.fit_transform wBatch).1)._vectorizer.vocabulary.length) ∧
     ((wATT.fit_transform wBatch).1).transform [(wTextAnchorAB, "u")]
       = ((wATT.fit_transform wBatch).1).transform [(wTextAnchorNovel, "v")]) :=
  ⟨by decide,
   C5_vocabulary_stability wATT wBatch wTextAnchorAB wTextAnchorNovel "u" "v" (by decide)⟩

theorem C6_edit_distance_transformer_witness :
    wEdit.fit wEditBatch = wEdit ∧
    (wEdit.transform wEditBatch).length = wEditBatch.length ∧
    (∀ row ∈ wEdit.transform wEditBatch, row.length = 1) ∧
    wEdit.get_feature_names = ["edit_distance"] ∧
    ∀ i (hi : i < wEditBatch.length) (hi2 : i < (wEdit.transform wEditBatch).length),
      (wEdit.transform wEditBatch).get ⟨i, hi2⟩
        = [url_edit_distance (wEditBatch.get ⟨i, hi⟩).1 (wEditBatch.get ⟨i, hi⟩).2] :=
  C6_edit_distance_transformer wEdit wEditBatch

theorem C8_context_merge_witness :
    (∀ f ∈ wCtx.feature_funcs, ((f wCtxAnchor "u").map Prod.fst).Nodup) ∧
    (dictGet (wCtx._apply_funcs wCtxAnchor "u") "x"
        = lastSome (wCtx.feature_funcs.map (fun f => dictGet (f wCtxAnchor "u") "x")) ∧
     ∀ X : List (Anchor × String), ((wCtx.fit_transform X).2).length = X.length) :=
  ⟨by decide, C8_context_merge wCtx wCtxAnchor "u" "x" (by decide)⟩

theorem C1_weak_labels_witness :
    (wExtractor.tok = tokenize ∧ (∀ t ∈ wExtractor.tagset.tags, t ≠ "")) ∧
    (((wExtractor.fit_transform ("h", "u")).2).length
        = ((wExtractor.fit_transform ("h", "u")).1).length ∧
     (∀ lab ∈ (wExtractor.fit_transform ("h", "u")).2, lab = 0 ∨ lab = 1) ∧
     ∀ i (hi : i < (wExtractor.parseClean "h" "u").length)
       (hi2 : i < ((wExtractor.fit_transform ("h", "u")).2).length),
       (((wExtractor.fit_transform ("h", "u")).2).get ⟨i, hi2⟩ = 1 ↔
         ∃ token ∈ tokenize ((((wExtractor.parseClean "h" "u").get ⟨i, hi⟩).text).getD ""),
           recognizedTag wExtractor.tagset token = true)) :=
  ⟨⟨rfl, by decide⟩, C1_weak_labels wExtractor "h" "u" rfl (by decide)⟩

theorem C2_text_rewrite_witness :
    (wExtractor.tok = tokenize ∧ (∀ t ∈ wExtractor.tagset.tags, t ≠ "")) ∧
    (((wExtractor.fit_transform ("h", "u")).1).length
        = (wExtractor.parseClean "h" "u").length ∧
     ∀ i (hi : i < (wExtractor.parseClean "h" "u").length)
       (hi2 : i < ((wExtractor.fit_transform ("h", "u")).1).length),
       ((((wExtractor.fit_transform ("h", "u")).1).get ⟨i, hi2⟩).text
           = some (joinTokens
               ((tokenize ((((wExtractor.parseClean "h" "u").get ⟨i, hi⟩).text).getD "")).filter
                 (fun token => !(recognizedTag wExtractor.tagset token))))) ∧
       ∀ token ∈ tokenize ((((((wExtractor.fit_transform ("h", "u")).1).get ⟨i, hi2⟩).text)).getD ""),
         recognizedTag wExtractor.tagset token = false) :=
  ⟨⟨rfl, by decide⟩, C2_text_rewrite wExtractor "h" "u" rfl (by decide)⟩

theorem C3_deterministic_witness :
    ((("<html>", "http://x.com/") : String × String) = ("<html>", "http://x.com/")) ∧
    wExtractor.fit_transform ("<html>", "http://x.com/")
      = wExtractor.fit_transform ("<html>", "http://x.com/") :=
  ⟨rfl, C3_deterministic wExtractor ("<html>", "http://x.com/") ("<html>", "http://x.com/") rfl⟩

theorem C10_none_text_witness :
    (wExtractor.tok = tokenize ∧ 2 < (wExtractor.parseClean "h" "u").length ∧
      (((wExtractor.parseClean "h" "u").get ⟨2, by decide⟩).text) = none) ∧
    (wExtractor.tok ((((wExtractor.parseClean "h" "u").get ⟨2, by decide⟩).text).getD "") = [] ∧
     ((wExtractor.fit_transform ("h", "u")).1).length = (wExtractor.parseClean "h" "u").length ∧
     ((wExtractor.fit_transform ("h", "u")).2).length = (wExtractor.parseClean "h" "u").length ∧
     ∀ (hi2 : 2 < ((wExtractor.fit_transform ("h", "u")).1).length)
       (hi3 : 2 < ((wExtractor.fit_transform ("h", "u")).2).length),
       ((wExtractor.fit_transform ("h", "u")).1).get ⟨2, hi2⟩
         = { (wExtractor.parseClean "h" "u").get ⟨2, by decide⟩ with text := some "" } ∧
       ((wExtractor.fit_transform ("h", "u")).2).get ⟨2, hi3⟩ = 0) :=
  ⟨⟨rfl, by decide, rfl⟩, C10_none_text wExtractor "h" "u" rfl 2 (by decide) rfl⟩
